import Mathlib

/-!
# Verification of `StatusBarFileSize.py`

A shallow embedding, in Lean 4, of the computational core of the
StatusBarFileSize Sublime Text plugin: the byte-size estimator
(`estimate_file_size`), the gzip-size estimator (`calculate_gzip_size`),
the human-readable formatter (`file_size_str`), and the controller glue
(`StatusBarFileSize.update_file_size`), together with theorems about them.

Modelling conventions:
* Python text (`str`) is `List Char` (Lean `Char` is a Unicode scalar value,
  exactly the code points a Python 3 `str` may hold, minus surrogates, which
  never appear in buffer text).  Byte strings are `List Nat`.
* Python's IEEE-754 arithmetic in `file_size_str` and in the hexadecimal
  half-byte accumulator is modelled with exact rationals (`ℚ`).  All values
  involved in the accumulator are multiples of 1/2, and all values involved
  in the formatter are of the form n / 1024^k, so for sizes below 2^53 every
  intermediate double is exact and the rational model agrees with it.
* The two external collaborators with real behaviour — Python's codec
  registry (`str.encode`) and the gzip streaming compressor — are passed in
  as explicit parameters (`reg : CodecRegistry`, `gzipLen : List Nat → Nat`),
  keeping the embedded repository code itself exact.  A concrete registry
  instance `pythonCodecs` implements the codecs the theorems evaluate.
* The only exception the embedded code can fail to catch is `LookupError`
  from `str.encode` on a codec id absent from Python's registry; the
  estimators therefore return `Except PyExc (Option _)`, where `.error`
  models an exception propagating to the caller and `.ok none` models the
  deliberate `return None`.
-/

/-! ## Formatter (`file_size_str`, source lines 9–20) -/

/-- The unit table `sizes = ["KiB", "MiB", "GiB", "TiB", "PiB", "EiB", "ZiB", "YiB"]`. -/
def SIZES : List String := ["KiB", "MiB", "GiB", "TiB", "PiB", "EiB", "ZiB", "YiB"]

/-- Two-digit zero-padded rendering of a value below 100 (the fractional part
of a `%.2f` rendering). -/
def pad2 (r : Nat) : String := if r < 10 then "0" ++ toString r else toString r

/-- Python's `"%.2f" % q` for a non-negative value that the double holds
exactly: round `q` to two decimal places, ties to even (CPython's float
formatting is correctly rounded with round-half-even), and print with
exactly two digits after the point. -/
def formatPct2 (q : ℚ) : String :=
  let n : Int := ⌊q * 100⌋
  let frac : ℚ := q * 100 - n
  let m : Int :=
    if frac > 1 / 2 then n + 1
    else if frac < 1 / 2 then n
    else if n % 2 = 0 then n else n + 1
  toString (m / 100) ++ "." ++ pad2 (m % 100).toNat

/-- The `for unit in sizes` loop of `file_size_str`: entering an iteration
with scaled value `q`, divide again while `q >= divisor`, otherwise render
with the current unit; falling off the end renders `q * divisor` with
`sizes[-1]`. -/
def fssLoop (divisor : ℚ) : ℚ → List String → String
  | q, [] => formatPct2 (q * divisor) ++ " " ++ SIZES.getLastD ""
  | q, unit :: rest =>
    if divisor ≤ q then fssLoop divisor (q / divisor) rest
    else formatPct2 q ++ " " ++ unit

/-- `file_size_str(size, divisor=1024)`: format a size in bytes into a nicer
string value (source lines 9–20).  The source is always called with the
default divisor 1024; the divisor is an explicit argument here. -/
def file_size_str (size : Nat) (divisor : Nat) : String :=
  if size < divisor then
    toString size ++ " " ++ (if size ≠ 1 then "Bytes" else "Byte")
  else
    fssLoop (divisor : ℚ) ((size : ℚ) / (divisor : ℚ)) SIZES

/-! ## Lookup tables (source lines 25–89) -/

/-- `SPECIAL_HEXADECIMAL = "special-hexadecimal"`. -/
def SPECIAL_HEXADECIMAL : String := "special-hexadecimal"

/-- `ENCODING_MAP`: Sublime Text encoding label → Python codec id (or the
hexadecimal marker), source lines 27–74, in source order. -/
def ENCODING_MAP : List (String × String) :=
  [ ("Undefined", "ascii"),
    ("Hexadecimal", SPECIAL_HEXADECIMAL),
    ("UTF-8", "utf-8"),
    ("UTF-16 LE", "utf-16le"),
    ("UTF-16 BE", "utf-16be"),
    ("Western (Windows 1252)", "windows-1252"),
    ("Western (ISO 8859-1)", "iso-8859-1"),
    ("Western (ISO 8859-3)", "iso-8859-3"),
    ("Western (ISO 8859-15)", "iso-8859-15"),
    ("Western (Mac Roman)", "mac_roman"),
    ("DOS (CP 437)", "cp-437"),
    ("Arabic (Windows 1256)", "windows-1256"),
    ("Arabic (ISO 8859-6)", "iso-8859-6"),
    ("Baltic (Windows 1257)", "windows-1257"),
    ("Baltic (ISO 8859-4)", "iso-8859-4"),
    ("Celtic (ISO 8859-14)", "iso-8859-14"),
    ("Central European (Windows 1250)", "windows-1250"),
    ("Central European (ISO 8859-2)", "iso-8859-2"),
    ("Cyrillic (Windows 1251)", "windows-1251"),
    ("Cyrillic (Windows 866)", "windows-866"),
    ("Cyrillic (ISO 8859-5)", "iso-8859-5"),
    ("Cyrillic (KOI8-R)", "koi8_r"),
    ("Cyrillic (KOI8-U)", "koi8_u"),
    ("Estonian (ISO 8859-13)", "iso-8859-13"),
    ("Greek (Windows 1253)", "windows-1253"),
    ("Greek (ISO 8859-7)", "iso-8859-7"),
    ("Hebrew (Windows 1255)", "windows-1255"),
    ("Hebrew (ISO 8859-8)", "iso-8859-8"),
    ("Nordic (ISO 8859-10)", "iso-8859-10"),
    ("Romanian (ISO 8859-16)", "iso-8859-16"),
    ("Turkish (Windows 1254)", "windows-1254"),
    ("Turkish (ISO 8859-9)", "iso-8859-9"),
    ("Vietnamese (Windows 1258)", "windows-1258") ]

/-- `CONSTANT_OVERHEAD`: per-encoding fixed byte prefix.  Empty in the
source (the byte-order-mark entries are commented out there). -/
def CONSTANT_OVERHEAD : List (String × List Nat) := []

/-- `CONSTANT_OVERHEAD.get(label, '')`.  The source's default is the *text*
string `''`; as a byte sequence fed to the estimators it contributes zero
bytes (and under the Python 3.3 `gzip` module that Sublime Text 3 plugins
run on, `GzipFile.write('')` is a no-op thanks to its `len(data) > 0`
guard), so the model uses the empty byte string. -/
def constant_overhead_get (label : String) : List Nat :=
  (CONSTANT_OVERHEAD.lookup label).getD []

/-- `LINE_ENDINGS_MAP`, source lines 83–87. -/
def LINE_ENDINGS_MAP : List (String × String) :=
  [ ("Unix", "\n"),
    ("Windows", "\r\n"),
    ("CR", "\r") ]

/-- `BLOCK_SIZE = 1000`. -/
def BLOCK_SIZE : Nat := 1000

/-! ## Block ranges and text helpers (source lines 92–107) -/

/-- The loop of `ranges(start, end, bs)` from loop counter `i`:
`while i < end: yield (i, min(i + bs, end)); i += bs`.  The recursion is
bounded by an explicit `fuel` so the definition is structural (and hence
evaluates inside the kernel); with `stop - i ≤ fuel` and `0 < bs` the fuel
never runs out, exactly the situations in which the Python loop
terminates. -/
def rangesLoop (stop bs : Nat) : Nat → Nat → List (Nat × Nat)
  | i, fuel + 1 =>
    if i < stop then (i, min (i + bs) stop) :: rangesLoop stop bs (i + bs) fuel
    else []
  | _, 0 => []

/-- `ranges(start, end, bs)` (source lines 92–96).  Note the source
initializes the loop counter to `0`, ignoring the `start` parameter; the
model reproduces this (its only call site passes `start = 0` anyway).
The source never calls `ranges` with `bs = 0` (the Python generator would
loop forever there); this model returns `[]` in that out-of-scope case,
and every theorem quantifying over block sizes assumes `0 < bs`.  With
`0 < bs` the loop makes at most `stop` iterations, so fuel `stop`
reproduces it exactly. -/
def ranges (start stop bs : Nat) : List (Nat × Nat) :=
  if 0 < bs then rangesLoop stop bs 0 stop else []

/-- `count_hex_digits(s)`: number of characters of `s` contained in
`"abcdefABCDEF0123456789"` (source lines 99–101). -/
def count_hex_digits (s : List Char) : Nat :=
  s.countP (fun x => "abcdefABCDEF0123456789".data.contains x)

/-- `view.substr(sublime.Region(a, b))`: the buffer text in the half-open
range `[a, b)`, clamped to the buffer (Sublime regions are clamped). -/
def substr (content : List Char) (a b : Nat) : List Char :=
  (content.take b).drop a

/-- `text.replace("\n", le)`: every `'\n'` replaced by the string `le`. -/
def pyReplace (le : List Char) : List Char → List Char
  | [] => []
  | c :: rest => (if c = '\n' then le else [c]) ++ pyReplace le rest

/-! ## The external codec collaborator (`str.encode`)

Every codec id in the range of `ENCODING_MAP` names (or attempts to name) a
stateless per-character codec: the single-byte charmap codecs, and the UTF
variants *without* byte-order marks (`utf-16le` / `utf-16be`, not `utf-16`).
A codec is therefore modelled as a per-character partial byte function, and
`str.encode(codec)` as its concatenated lift; `none` on a character models
`UnicodeEncodeError` (caught by the source), and an id absent from the
registry models `LookupError` from the codec lookup inside `str.encode`
(caught nowhere in the source). -/

/-- A stateless codec: bytes for one character, or `none` when the codec
cannot represent it (Python raises `UnicodeEncodeError` there). -/
def PyCodec : Type := Char → Option (List Nat)

/-- A codec registry: Python codec id → codec, `none` when `str.encode`
would raise `LookupError` for that id. -/
def CodecRegistry : Type := String → Option PyCodec

/-- `text.encode(codec)` for a stateless codec: encode each character and
concatenate, failing if any character fails. -/
def encodeList (c : PyCodec) : List Char → Option (List Nat)
  | [] => some []
  | ch :: rest =>
    match c ch, encodeList c rest with
    | some bs, some tail => some (bs ++ tail)
    | _, _ => none

/-- The UTF-8 encoding of one Unicode scalar value (1–4 bytes; total, since
Lean `Char` excludes the surrogate range that Python's utf-8 codec rejects). -/
def utf8EncodeChar (ch : Char) : List Nat :=
  let n := ch.toNat
  if n < 0x80 then [n]
  else if n < 0x800 then [0xC0 + n / 64, 0x80 + n % 64]
  else if n < 0x10000 then [0xE0 + n / 4096, 0x80 + n / 64 % 64, 0x80 + n % 64]
  else [0xF0 + n / 262144, 0x80 + n / 4096 % 64, 0x80 + n / 64 % 64, 0x80 + n % 64]

/-- The `utf-8` codec (never fails on a scalar value). -/
def utf8Codec : PyCodec := fun ch => some (utf8EncodeChar ch)

/-- The `ascii` codec: one byte below 128, failure above. -/
def asciiCodec : PyCodec := fun ch =>
  if ch.toNat < 128 then some [ch.toNat] else none

/-- The UTF-16 code units of one scalar value (one unit, or a surrogate
pair for the supplementary planes). -/
def utf16Units (ch : Char) : List Nat :=
  let n := ch.toNat
  if n < 0x10000 then [n]
  else [0xD800 + (n - 0x10000) / 1024, 0xDC00 + (n - 0x10000) % 1024]

/-- The `utf-16le` codec: each code unit as two bytes, low byte first; no
byte-order mark. -/
def utf16leCodec : PyCodec := fun ch =>
  some ((utf16Units ch).flatMap (fun u => [u % 256, u / 256]))

/-- The `utf-16be` codec: each code unit as two bytes, high byte first; no
byte-order mark. -/
def utf16beCodec : PyCodec := fun ch =>
  some ((utf16Units ch).flatMap (fun u => [u / 256, u % 256]))

/-- The slice of CPython's codec registry exercised by the theorems below.
Of the codec ids appearing in `ENCODING_MAP`, the ids `"cp-437"` and
`"windows-866"` are *absent* from CPython's registry (the registered names
are `cp437` / `cp866`; `codecs.lookup` raises `LookupError` on these — this
model is exact for them).  The remaining single-byte charmap ids are valid
in CPython but are exercised by no theorem in this development; the model
leaves them unimplemented (`none`), which no theorem below relies on. -/
def pythonCodecs : CodecRegistry := fun name =>
  if name = "utf-8" then some utf8Codec
  else if name = "ascii" then some asciiCodec
  else if name = "utf-16le" then some utf16leCodec
  else if name = "utf-16be" then some utf16beCodec
  else none

/-! ## The buffer collaborator (`sublime.View`)

The estimators read the buffer through method calls that may observe
different states over time (the central hazard the change tag defends
against).  The label getters and `size()` are each read once, before the
loop (the generator in `iterate_view_blocks` reads `view.size()` once); the
per-iteration reads are `change_count()` (the tag check) and `substr` (the
block extraction), modelled as functions of the iteration number. -/

/-- A buffer as observed by one estimation call. -/
structure View where
  /-- `view.encoding()`: the declared encoding label. -/
  encoding : String
  /-- `view.line_endings()`: the declared line-ending label. -/
  line_endings : String
  /-- `view.size()` as read by `iterate_view_blocks`. -/
  size : Nat
  /-- `view.change_count()` at function entry (`tag = view.change_count()`). -/
  tag0 : Nat
  /-- `view.change_count()` as re-read at the top of block iteration `i`. -/
  tagAt : Nat → Nat
  /-- The buffer content when block iteration `i` extracts its substring. -/
  contentAt : Nat → List Char

/-- A buffer that does not change during the call: every tag re-read equals
the entry tag and every extraction sees the same content. -/
def View.stable (encoding line_endings : String) (content : List Char)
    (tag : Nat) : View :=
  ⟨encoding, line_endings, content.length, tag, fun _ => tag, fun _ => content⟩

/-- The exception a run of the embedded code can fail to catch:
`LookupError` raised by `str.encode` on a codec id absent from the registry
(the source catches only `KeyError` and `UnicodeError`). -/
inductive PyExc where
  | lookupError : PyExc
deriving DecidableEq, Repr

/-! ## `estimate_file_size` (source lines 110–141) -/

/-- The block loop of `estimate_file_size`: for each remaining range, check
the change tag (abort with `None` on mismatch), extract the block, and
accumulate — hex-digit halves for the hexadecimal pseudo-encoding, encoded
byte length otherwise (`None` on `UnicodeError`, uncaught `LookupError` on
an unregistered codec id).  `ix` is the iteration number, `acc` the running
`size` accumulator. -/
def estimateBlocks (reg : CodecRegistry) (v : View) (le : List Char)
    (encoding : String) : List (Nat × Nat) → Nat → ℚ → Except PyExc (Option ℚ)
  | [], _, acc => .ok (some acc)
  | (s, e) :: rest, ix, acc =>
    if v.tagAt ix ≠ v.tag0 then .ok none
    else
      let text := substr (v.contentAt ix) s e
      if encoding = SPECIAL_HEXADECIMAL then
        estimateBlocks reg v le encoding rest (ix + 1)
          (acc + (count_hex_digits text : ℚ) / 2)
      else
        match reg encoding with
        | none => .error .lookupError
        | some c =>
          match encodeList c (pyReplace le text) with
          | none => .ok none
          | some bytes => estimateBlocks reg v le encoding rest (ix + 1)
              (acc + (bytes.length : ℚ))

/-- `estimate_file_size(view)` (source lines 110–141).  Resolve the labels
(`KeyError` → `None`), then accumulate over the blocks of
`ranges(0, view.size(), bs)` starting from the overhead length, and force
the accumulator into an `int` on return (`int()` truncates toward zero;
the accumulator is a sum of non-negative terms, so this is the floor, and
the result is a natural number).  The block size is an explicit argument;
the source always passes `BLOCK_SIZE`. -/
def estimate_file_size (reg : CodecRegistry) (v : View) (bs : Nat) :
    Except PyExc (Option Nat) :=
  match LINE_ENDINGS_MAP.lookup v.line_endings, ENCODING_MAP.lookup v.encoding with
  | some le, some encoding =>
    (estimateBlocks reg v le.data encoding (ranges 0 v.size bs) 0
        ((constant_overhead_get v.encoding).length : ℚ)).map
      (fun r => r.map (fun q => (⌊q⌋).toNat))
  | _, _ => .ok none

/-! ## `calculate_gzip_size` (source lines 144–173) -/

/-- The block loop of `calculate_gzip_size`: same tag check and extraction
as `estimateBlocks`, but the hexadecimal pseudo-encoding aborts with `None`
and successful blocks append their encoded bytes to the gzip stream
(`written` is everything fed to the compressor so far, starting with the
constant overhead). -/
def gzipBlocks (reg : CodecRegistry) (v : View) (le : List Char)
    (encoding : String) : List (Nat × Nat) → Nat → List Nat →
      Except PyExc (Option (List Nat))
  | [], _, written => .ok (some written)
  | (s, e) :: rest, ix, written =>
    if v.tagAt ix ≠ v.tag0 then .ok none
    else
      let text := substr (v.contentAt ix) s e
      if encoding = SPECIAL_HEXADECIMAL then .ok none
      else
        match reg encoding with
        | none => .error .lookupError
        | some c =>
          match encodeList c (pyReplace le text) with
          | none => .ok none
          | some bytes => gzipBlocks reg v le encoding rest (ix + 1)
              (written ++ bytes)

/-- `calculate_gzip_size(view)` (source lines 144–173).  The compressor is a
black box (spec §4.3: "any conforming compression library with a streaming
write API"): `gzipLen` maps the byte sequence fed to the finalized stream to
the compressed byte count `byte_content.tell()` reports.  On the abort paths
the partial stream is discarded and `None` returned. -/
def calculate_gzip_size (reg : CodecRegistry) (gzipLen : List Nat → Nat)
    (v : View) (bs : Nat) : Except PyExc (Option Nat) :=
  match LINE_ENDINGS_MAP.lookup v.line_endings, ENCODING_MAP.lookup v.encoding with
  | some le, some encoding =>
    (gzipBlocks reg v le.data encoding (ranges 0 v.size bs) 0
        (constant_overhead_get v.encoding)).map
      (fun r => r.map gzipLen)
  | _, _ => .ok none

/-- Modelled from the spec: a concrete instance of the black-box compressor
length function, for evaluating the estimators at concrete inputs.  It is
exact on the empty stream (a finalized empty gzip stream is 20 bytes:
10-byte header, 2-byte empty deflate block, 8-byte trailer) and total like
the real compressor; the exact lengths on non-empty input depend on zlib
internals no theorem here relies on. -/
def gzip_len_model (written : List Nat) : Nat := 20 + written.length

/-! ## Controller (`StatusBarFileSize.update_file_size`, source lines 176–226) -/

/-- The two process-wide boolean settings (source lines 182–190, defaults
`estimate_file_size = True`, `calculate_gzip = False`). -/
structure Settings where
  /-- The `estimate_file_size` setting. -/
  estimate_file_size : Bool
  /-- The `calculate_gzip` setting. -/
  calculate_gzip : Bool
deriving DecidableEq, Repr

/-- The view as the controller sees it: the estimation-relevant part plus
`file_name()` (`none` for an unsaved buffer) and `is_dirty()`. -/
structure ControllerView where
  /-- The buffer as the estimators observe it. -/
  view : View
  /-- `view.file_name()`: `none` when the buffer has no associated path. -/
  file_name : Option String
  /-- `view.is_dirty()`. -/
  is_dirty : Bool

/-- Python truthiness of `not view.file_name()`: true for `None` and for
the empty string. -/
def fileNameFalsy : Option String → Bool
  | none => true
  | some s => s = ""

/-- `str.format` restricted to the four pattern literals the controller
assigns (`"{size}"`, `"~{size}"`, `"{size} ({gzip_size})"`,
`"~{size} ({gzip_size})"`). -/
def applyPattern (pattern sizeStr gzipStr : String) : String :=
  if pattern = "~{size}" then "~" ++ sizeStr
  else if pattern = "{size}" then sizeStr
  else if pattern = "~{size} ({gzip_size})" then
    "~" ++ sizeStr ++ " (" ++ gzipStr ++ ")"
  else if pattern = "{size} ({gzip_size})" then
    sizeStr ++ " (" ++ gzipStr ++ ")"
  else pattern

/-- The tail of `update_file_size` (source lines 217–222): if `size` is
set, render with `gzip_pattern` when `gzip_size` is also set, else with
`pattern`, and write the status; otherwise leave the entry cleared. -/
def mkStatus (size? gzip? : Option Nat) (pattern gzipPattern : String) :
    Option String :=
  match size? with
  | none => none
  | some sz =>
    match gzip? with
    | some g =>
      some (applyPattern gzipPattern (file_size_str sz 1024) (file_size_str g 1024))
    | none => some (applyPattern pattern (file_size_str sz 1024) "")

/-- What one `update_file_size` trigger does to the observable world:
the status entry it leaves (`none` = cleared, the entry is erased first)
and whether `calculate_gzip_size` was invoked. -/
structure UpdateOutcome where
  /-- The status text left in the `FileSize` slot (`none` = cleared). -/
  status : Option String
  /-- Whether the gzip estimator ran on this trigger. -/
  gzipCalled : Bool
deriving DecidableEq, Repr

/-- `StatusBarFileSize.update_file_size(view)` (source lines 192–222), the
shared body of the three async triggers.  `getsize` models
`os.path.getsize` (`none` = `OSError`, caught by the `except OSError: pass`
— note that `try` block covers the disk-branch gzip call too, but only for
`OSError`, which `calculate_gzip_size` never raises).  A `.error` result is
an exception propagating out of the handler. -/
def update_file_size (s : Settings) (getsize : String → Option Nat)
    (reg : CodecRegistry) (gzipLen : List Nat → Nat) (cv : ControllerView) :
    Except PyExc UpdateOutcome :=
  if fileNameFalsy cv.file_name || cv.is_dirty then
    if s.estimate_file_size then
      match estimate_file_size reg cv.view BLOCK_SIZE with
      | .error e => .error e
      | .ok size? =>
        if s.calculate_gzip then
          match calculate_gzip_size reg gzipLen cv.view BLOCK_SIZE with
          | .error e => .error e
          | .ok gzip? =>
            .ok ⟨mkStatus size? gzip? "~{size}" "~{size} ({gzip_size})", true⟩
        else .ok ⟨mkStatus size? none "~{size}" "", false⟩
    else .ok ⟨none, false⟩
  else
    match cv.file_name with
    | some path =>
      match getsize path with
      | none => .ok ⟨none, false⟩
      | some n =>
        if s.calculate_gzip then
          match calculate_gzip_size reg gzipLen cv.view BLOCK_SIZE with
          | .error e => .error e
          | .ok gzip? =>
            .ok ⟨mkStatus (some n) gzip? "{size}" "{size} ({gzip_size})", true⟩
        else .ok ⟨mkStatus (some n) none "{size}" "", false⟩
    | none => .ok ⟨none, false⟩


/-- Normal completion of one block iteration of `estimate_file_size`: the
hexadecimal branch always completes, the encoding branch completes when the
codec id resolves and the block's rewritten text encodes.  (`ix` is the
iteration number, `r` the half-open range of the block.) -/
def blockOk (reg : CodecRegistry) (v : View) (le : List Char)
    (encoding : String) (ix : Nat) (r : Nat × Nat) : Prop :=
  encoding = SPECIAL_HEXADECIMAL ∨
    ∃ c bytes, reg encoding = some c ∧
      encodeList c (pyReplace le (substr (v.contentAt ix) r.1 r.2)) = some bytes

/-! ## Supporting lemmas -/

theorem encodeList_append (c : PyCodec) (a b : List Char) :
    encodeList c (a ++ b) =
      match encodeList c a, encodeList c b with
      | some x, some y => some (x ++ y)
      | _, _ => none := by
  induction a with
  | nil => cases hb : encodeList c b <;> simp [encodeList, hb]
  | cons ch rest ih =>
    cases hch : c ch <;> cases hrest : encodeList c rest <;>
      cases hb : encodeList c b <;> simp [encodeList, hch, hrest, hb, ih]

theorem pyReplace_append (le a b : List Char) :
    pyReplace le (a ++ b) = pyReplace le a ++ pyReplace le b := by
  induction a with
  | nil => simp [pyReplace]
  | cons ch rest ih => simp [pyReplace, ih]

theorem count_hex_digits_append (a b : List Char) :
    count_hex_digits (a ++ b) = count_hex_digits a + count_hex_digits b :=
  List.countP_append _ _ _

theorem drop_split (content : List Char) (i m : Nat) (him : i ≤ m)
    (hm : m ≤ content.length) :
    content.drop i = substr content i m ++ content.drop m := by
  conv_lhs => rw [← List.take_append_drop m content]
  rw [List.drop_append_eq_append_drop, substr]
  have h1 : i - (List.take m content).length = 0 := by
    rw [List.length_take]; omega
  rw [h1, List.drop_zero]

theorem rangesLoop_nil (stop bs i fuel : Nat) (h : stop ≤ i) :
    rangesLoop stop bs i fuel = [] := by
  cases fuel <;> simp [rangesLoop, Nat.not_lt.2 h]

theorem drop_min_eq_drop (content : List Char) (k : Nat) :
    content.drop (min k content.length) = content.drop k := by
  rcases Nat.le_total k content.length with h | h
  · rw [Nat.min_eq_left h]
  · rw [Nat.min_eq_right h, List.drop_eq_nil_of_le h,
      List.drop_eq_nil_of_le (le_refl _)]

theorem estimateBlocks_hex (reg : CodecRegistry) (v : View) (le : List Char)
    (content : List Char) (hTag : ∀ j, v.tagAt j = v.tag0)
    (hContent : ∀ j, v.contentAt j = content) (bs : Nat) (hbs : 0 < bs) :
    ∀ fuel i ix acc, content.length - i ≤ fuel →
      estimateBlocks reg v le SPECIAL_HEXADECIMAL
          (rangesLoop content.length bs i fuel) ix acc
        = .ok (some (acc + (count_hex_digits (content.drop i) : ℚ) / 2)) := by
  intro fuel
  induction fuel with
  | zero =>
    intro i ix acc hfuel
    rw [rangesLoop, List.drop_eq_nil_of_le (by omega)]
    simp [estimateBlocks, count_hex_digits]
  | succ fuel ih =>
    intro i ix acc hfuel
    by_cases hi : i < content.length
    · rw [rangesLoop, if_pos hi]
      rw [estimateBlocks, if_neg (by simp [hTag]), if_pos rfl, hContent]
      rw [ih (i + bs) (ix + 1) _ (by omega)]
      have hkey : count_hex_digits (content.drop i)
          = count_hex_digits (substr content i (min (i + bs) content.length))
            + count_hex_digits (content.drop (i + bs)) := by
        rw [drop_split content i (min (i + bs) content.length)
              (by omega) (Nat.min_le_right _ _),
          count_hex_digits_append, drop_min_eq_drop]
      have : acc + (count_hex_digits (substr content i (min (i + bs) content.length)) : ℚ) / 2
          + (count_hex_digits (content.drop (i + bs)) : ℚ) / 2
          = acc + (count_hex_digits (content.drop i) : ℚ) / 2 := by
        rw [hkey]; push_cast; ring
      rw [this]
    · rw [rangesLoop, if_neg hi, List.drop_eq_nil_of_le (by omega)]
      simp [estimateBlocks, count_hex_digits]

theorem estimateBlocks_enc (reg : CodecRegistry) (v : View) (le : List Char)
    (content : List Char) (codecName : String) (codec : PyCodec)
    (hTag : ∀ j, v.tagAt j = v.tag0) (hContent : ∀ j, v.contentAt j = content)
    (hreg : reg codecName = some codec) (hne : codecName ≠ SPECIAL_HEXADECIMAL)
    (bs : Nat) (hbs : 0 < bs) :
    ∀ fuel i ix acc, content.length - i ≤ fuel →
      estimateBlocks reg v le codecName
          (rangesLoop content.length bs i fuel) ix acc
        = match encodeList codec (pyReplace le (content.drop i)) with
          | some bytes => .ok (some (acc + (bytes.length : ℚ)))
          | none => .ok none := by
  intro fuel
  induction fuel with
  | zero =>
    intro i ix acc hfuel
    rw [rangesLoop, List.drop_eq_nil_of_le (by omega)]
    simp [estimateBlocks, pyReplace, encodeList]
  | succ fuel ih =>
    intro i ix acc hfuel
    by_cases hi : i < content.length
    · have hsplit : content.drop i
          = substr content i (min (i + bs) content.length) ++ content.drop (i + bs) := by
        rw [← drop_min_eq_drop content (i + bs)]
        exact drop_split content i (min (i + bs) content.length)
          (by omega) (Nat.min_le_right _ _)
      rw [rangesLoop, if_pos hi, hsplit, pyReplace_append, encodeList_append]
      cases hseg : encodeList codec
          (pyReplace le (substr content i (min (i + bs) content.length))) with
      | none => simp [estimateBlocks, hTag, hne, hreg, hContent, hseg]
      | some b1 =>
        simp only [estimateBlocks, hTag, ne_eq, not_true_eq_false, if_false,
          if_neg hne, hreg, hContent, hseg]
        rw [ih (i + bs) (ix + 1) _ (by omega)]
        cases hrest : encodeList codec (pyReplace le (content.drop (i + bs))) with
        | none => simp
        | some b2 =>
          simp only [List.length_append]
          have : acc + (b1.length : ℚ) + (b2.length : ℚ)
              = acc + ((b1.length + b2.length : ℕ) : ℚ) := by
            push_cast; ring
          rw [this]
    · rw [rangesLoop, if_neg hi, List.drop_eq_nil_of_le (by omega)]
      simp [estimateBlocks, pyReplace, encodeList]

theorem estimateBlocks_abort (reg : CodecRegistry) (v : View) (le : List Char)
    (encoding : String) :
    ∀ (blocks : List (Nat × Nat)) (i ix : Nat) (acc : ℚ),
      i < blocks.length →
      v.tagAt (ix + i) ≠ v.tag0 →
      (∀ k, k < i → v.tagAt (ix + k) = v.tag0 ∧
        blockOk reg v le encoding (ix + k) (blocks.getD k (0, 0))) →
      estimateBlocks reg v le encoding blocks ix acc = .ok none := by
  intro blocks
  induction blocks with
  | nil => intro i ix acc hi; simp at hi
  | cons r rest ihb =>
    intro i ix acc hi hmut hprior
    obtain ⟨s, e⟩ := r
    cases i with
    | zero =>
      rw [estimateBlocks, if_pos (by simpa using hmut)]
    | succ i =>
      have h0 := hprior 0 (Nat.succ_pos _)
      simp only [Nat.add_zero, List.getD_cons_zero] at h0
      rw [estimateBlocks, if_neg (by simp [h0.1])]
      have hnext : ∀ acc' : ℚ,
          estimateBlocks reg v le encoding rest (ix + 1) acc' = .ok none := by
        intro acc'
        apply ihb i (ix + 1) acc' (by simpa using hi)
        · have hx : ix + 1 + i = ix + (i + 1) := by omega
          rw [hx]; exact hmut
        · intro k hk
          have hp := hprior (k + 1) (by omega)
          have hx : ix + (k + 1) = ix + 1 + k := by omega
          rw [hx] at hp
          simpa [List.getD] using hp
      by_cases hhex : encoding = SPECIAL_HEXADECIMAL
      · rw [if_pos hhex]; exact hnext _
      · rcases h0.2 with hL | ⟨c, bytes, hc, hb⟩
        · exact absurd hL hhex
        simp only [if_neg hhex, hc, hb]
        exact hnext _

theorem le_scaled_iff (n k : Nat) :
    ((1024 : ℚ) ≤ (n : ℚ) / 1024 ^ k) ↔ 1024 ^ (k + 1) ≤ n := by
  rw [le_div_iff₀ (by positivity : (0 : ℚ) < 1024 ^ k)]
  rw [show (1024 : ℚ) * 1024 ^ k = ((1024 ^ (k + 1) : ℕ) : ℚ) by
    push_cast [pow_succ]; ring]
  exact Nat.cast_le

theorem scaled_lt_iff (n k : Nat) :
    ((n : ℚ) / 1024 ^ k < 1024) ↔ n < 1024 ^ (k + 1) := by
  rw [div_lt_iff₀ (by positivity : (0 : ℚ) < 1024 ^ k)]
  rw [show (1024 : ℚ) * 1024 ^ k = ((1024 ^ (k + 1) : ℕ) : ℚ) by
    push_cast [pow_succ]; ring]
  exact Nat.cast_lt

theorem div_pow_succ (n k : Nat) :
    ((n : ℚ) / 1024 ^ k) / 1024 = (n : ℚ) / 1024 ^ (k + 1) := by
  rw [div_div, ← pow_succ]

theorem fssLoop_stops (n : Nat) :
    ∀ (units : List String) (k m : Nat), k < units.length →
      (∀ j, j < k → (1024 : ℚ) ≤ (n : ℚ) / 1024 ^ (m + j + 1)) →
      ((n : ℚ) / 1024 ^ (m + k + 1) < 1024) →
      fssLoop 1024 ((n : ℚ) / 1024 ^ (m + 1)) units
        = formatPct2 ((n : ℚ) / 1024 ^ (m + k + 1)) ++ " " ++ units.getD k "" := by
  intro units
  induction units with
  | nil => intro k m hk _ _; simp at hk
  | cons u rest ihu =>
    intro k m hk hge hlt
    cases k with
    | zero =>
      simp only [fssLoop]
      rw [if_neg (not_le.2 hlt)]
      simp [List.getD]
    | succ k =>
      simp only [fssLoop]
      rw [if_pos (hge 0 (Nat.succ_pos _)), div_pow_succ]
      have hge' : ∀ j, j < k → (1024 : ℚ) ≤ (n : ℚ) / 1024 ^ (m + 1 + j + 1) := by
        intro j hj
        have h := hge (j + 1) (by omega)
        have e : m + (j + 1) + 1 = m + 1 + j + 1 := by omega
        rwa [e] at h
      have hlt' : (n : ℚ) / 1024 ^ (m + 1 + k + 1) < 1024 := by
        have e : m + (k + 1) + 1 = m + 1 + k + 1 := by omega
        rwa [e] at hlt
      rw [ihu k (m + 1) (by simpa using hk) hge' hlt']
      have e : m + 1 + k + 1 = m + (k + 1) + 1 := by omega
      rw [e]
      simp [List.getD]

theorem fssLoop_exhaust (n : Nat) :
    ∀ (units : List String) (m : Nat),
      (∀ j, j < units.length → (1024 : ℚ) ≤ (n : ℚ) / 1024 ^ (m + j + 1)) →
      fssLoop 1024 ((n : ℚ) / 1024 ^ (m + 1)) units
        = formatPct2 ((n : ℚ) / 1024 ^ (m + units.length + 1) * 1024)
            ++ " " ++ SIZES.getLastD "" := by
  intro units
  induction units with
  | nil =>
    intro m _
    simp only [fssLoop, List.length_nil, Nat.add_zero]
  | cons u rest ihu =>
    intro m hge
    simp only [fssLoop]
    rw [if_pos (hge 0 (Nat.succ_pos _)), div_pow_succ]
    have hge' : ∀ j, j < rest.length → (1024 : ℚ) ≤ (n : ℚ) / 1024 ^ (m + 1 + j + 1) := by
      intro j hj
      have h := hge (j + 1) (by simpa using Nat.succ_lt_succ hj)
      have e : m + (j + 1) + 1 = m + 1 + j + 1 := by omega
      rwa [e] at h
    rw [ihu (m + 1) hge']
    have e : m + 1 + rest.length + 1 = m + (u :: rest).length + 1 := by
      simp; omega
    rw [e]

/-- A stable buffer under a recognized non-hexadecimal encoding whose codec
id resolves and whose rewritten content encodes: the estimate is the
overhead length plus the byte length of encoding the whole content at once,
for every positive block size.  (Shared backbone of the stable-buffer
theorems below.) -/
theorem estimate_stable_enc (reg : CodecRegistry)
    (encLabel lel codecName les : String) (codec : PyCodec)
    (content : List Char) (tag bs : Nat) (bytes : List Nat)
    (henc : ENCODING_MAP.lookup encLabel = some codecName)
    (hne : codecName ≠ SPECIAL_HEXADECIMAL)
    (hle : LINE_ENDINGS_MAP.lookup lel = some les)
    (hreg : reg codecName = some codec)
    (hbytes : encodeList codec (pyReplace les.data content) = some bytes)
    (hbs : 0 < bs) :
    estimate_file_size reg (View.stable encLabel lel content tag) bs
      = .ok (some ((constant_overhead_get encLabel).length + bytes.length)) := by
  rw [estimate_file_size]
  simp only [View.stable, hle, henc]
  rw [ranges, if_pos hbs]
  rw [estimateBlocks_enc reg _ les.data content codecName codec (fun _ => rfl)
      (fun _ => rfl) hreg hne bs hbs content.length 0 0 _ (by omega)]
  rw [List.drop_zero, hbytes]
  simp only [Except.map, Option.map]
  have hcast : ((constant_overhead_get encLabel).length : ℚ) + (bytes.length : ℚ)
      = (((constant_overhead_get encLabel).length + bytes.length : ℕ) : ℚ) := by
    push_cast; ring
  rw [hcast, Int.floor_natCast, Int.toNat_natCast]

/-- **C3.** For every stable buffer with declared encoding `Hexadecimal`
(and a recognized line-ending label), and for every positive block size,
`estimate_file_size` accumulates the per-block hex-digit counts divided by
two with exact rational division, flooring only on return: the result is
the overhead length plus `⌊total hex digits / 2⌋`, independently of how
the digits fall across blocks. -/
theorem estimate_hex_accumulates_globally_floored (reg : CodecRegistry)
    (lel les : String) (content : List Char) (tag bs : Nat)
    (hle : LINE_ENDINGS_MAP.lookup lel = some les) (hbs : 0 < bs) :
    estimate_file_size reg (View.stable "Hexadecimal" lel content tag) bs
      = .ok (some ((constant_overhead_get "Hexadecimal").length
          + count_hex_digits content / 2)) := by
  rw [estimate_file_size]
  have hhex : ENCODING_MAP.lookup "Hexadecimal" = some SPECIAL_HEXADECIMAL := rfl
  simp only [View.stable, hle, hhex]
  rw [ranges, if_pos hbs]
  rw [estimateBlocks_hex reg _ les.data content (fun _ => rfl) (fun _ => rfl)
      bs hbs content.length 0 0 _ (by omega)]
  rw [List.drop_zero]
  simp only [Except.map, Option.map]
  have ho : constant_overhead_get "Hexadecimal" = [] := rfl
  rw [ho]
  simp only [List.length_nil, Nat.cast_zero, zero_add, Nat.zero_add]
  rw [show (2 : ℚ) = ((2 : ℕ) : ℚ) by norm_num,
    Rat.floor_natCast_div_natCast, ← Int.natCast_div, Int.toNat_natCast]

/-- Witness for C3: the spec's own example, content `"ab c"` (3 hex digits)
estimates to 1, through the theorem at block size `BLOCK_SIZE`. -/
theorem estimate_hex_accumulates_globally_floored_witness :
    LINE_ENDINGS_MAP.lookup "Unix" = some "\n" ∧ 0 < BLOCK_SIZE
    ∧ estimate_file_size pythonCodecs
        (View.stable "Hexadecimal" "Unix" "ab c".data 7) BLOCK_SIZE
      = .ok (some ((constant_overhead_get "Hexadecimal").length
          + count_hex_digits "ab c".data / 2))
    ∧ (constant_overhead_get "Hexadecimal").length
        + count_hex_digits "ab c".data / 2 = 1 :=
  ⟨rfl, by decide,
    estimate_hex_accumulates_globally_floored pythonCodecs "Unix" "\n"
      "ab c".data 7 BLOCK_SIZE rfl (by decide),
    by decide⟩

/-- **C10.** For every stable buffer under a recognized non-hexadecimal
encoding whose codec id resolves and whose rewritten content the codec can
encode, and for every positive block size, partitioning into blocks and
summing per-block encoded byte lengths gives exactly the overhead length
plus the byte length of rewriting and encoding the entire content at once —
the result does not depend on the block size. -/
theorem estimate_block_size_independent (reg : CodecRegistry)
    (encLabel lel codecName les : String) (codec : PyCodec)
    (content : List Char) (tag bs : Nat) (bytes : List Nat)
    (henc : ENCODING_MAP.lookup encLabel = some codecName)
    (hne : codecName ≠ SPECIAL_HEXADECIMAL)
    (hle : LINE_ENDINGS_MAP.lookup lel = some les)
    (hreg : reg codecName = some codec)
    (hbytes : encodeList codec (pyReplace les.data content) = some bytes)
    (hbs : 0 < bs) :
    estimate_file_size reg (View.stable encLabel lel content tag) bs
      = .ok (some ((constant_overhead_get encLabel).length + bytes.length)) :=
  estimate_stable_enc reg encLabel lel codecName les codec content tag bs bytes
    henc hne hle hreg hbytes hbs

/-- Witness for C10 at block size 1 (every block a single character): a
three-character UTF-8 buffer estimates to the one-shot byte count 3. -/
theorem estimate_block_size_independent_witness :
    ENCODING_MAP.lookup "UTF-8" = some "utf-8"
    ∧ "utf-8" ≠ SPECIAL_HEXADECIMAL
    ∧ LINE_ENDINGS_MAP.lookup "Unix" = some "\n"
    ∧ pythonCodecs "utf-8" = some utf8Codec
    ∧ encodeList utf8Codec (pyReplace "\n".data "ab\n".data) = some [97, 98, 10]
    ∧ 0 < 1
    ∧ estimate_file_size pythonCodecs (View.stable "UTF-8" "Unix" "ab\n".data 3) 1
      = .ok (some ((constant_overhead_get "UTF-8").length + ([97, 98, 10] : List Nat).length)) :=
  ⟨rfl, by decide, rfl, rfl, by decide, by decide,
    estimate_block_size_independent pythonCodecs "UTF-8" "Unix" "utf-8" "\n"
      utf8Codec "ab\n".data 3 1 [97, 98, 10] rfl (by decide) rfl rfl (by decide)
      (by decide)⟩

/-- **C8 (counterexample).** The claim is stated for *every* stable
all-newline buffer with Windows line endings, but under the `UTF-16 LE`
encoding each rewritten `"\r\n"` encodes to four bytes, not two: a
one-newline buffer estimates to 4, not `2 × 1`. -/
theorem estimate_windows_newlines_utf16_not_double :
    estimate_file_size pythonCodecs
        (View.stable "UTF-16 LE" "Windows" ['\n'] 0) BLOCK_SIZE = .ok (some 4)
    ∧ (4 : ℕ) ≠ 2 * ([('\n' : Char)].length) :=
  ⟨by with_unfolding_all rfl, by decide⟩

/-- **C8 (amended).** For every stable buffer whose content is all `'\n'`,
with line-ending style Windows and declared encoding UTF-8 (or any codec
mapping `'\r'` and `'\n'` to one byte each), each newline is rewritten to
the two-character `"\r\n"` before encoding, so the estimate is twice the
newline count, for every positive block size. -/
theorem estimate_windows_newlines_utf8_doubles (content : List Char)
    (tag bs : Nat) (hnl : ∀ ch ∈ content, ch = '\n') (hbs : 0 < bs) :
    estimate_file_size pythonCodecs (View.stable "UTF-8" "Windows" content tag) bs
      = .ok (some (2 * content.length)) := by
  have hbytes : ∃ bytes, encodeList utf8Codec (pyReplace "\r\n".data content)
      = some bytes ∧ bytes.length = 2 * content.length := by
    induction content with
    | nil => exact ⟨[], rfl, rfl⟩
    | cons ch rest ihc =>
      obtain ⟨bytes, hb, hlen⟩ := ihc (fun c hc => hnl c (List.mem_cons_of_mem _ hc))
      have hch : ch = '\n' := hnl ch (List.mem_cons_self _ _)
      subst hch
      have hcr : utf8Codec '\r' = some [13] := rfl
      have hlf : utf8Codec '\n' = some [10] := rfl
      refine ⟨[13, 10] ++ bytes, ?_, by simp [hlen]; ring⟩
      have hrepl : pyReplace "\r\n".data ('\n' :: rest)
          = '\r' :: '\n' :: pyReplace "\r\n".data rest := rfl
      rw [hrepl, encodeList, hcr, encodeList, hlf, hb]
      rfl
  obtain ⟨bytes, hb, hlen⟩ := hbytes
  have h := estimate_stable_enc pythonCodecs "UTF-8" "Windows" "utf-8" "\r\n"
    utf8Codec content tag bs bytes rfl (by decide) rfl rfl hb hbs
  rw [h, hlen]
  have ho : (constant_overhead_get "UTF-8").length = 0 := rfl
  rw [ho, Nat.zero_add]

/-- Witness for C8 (amended) on a two-newline buffer: estimate 4. -/
theorem estimate_windows_newlines_utf8_doubles_witness :
    (∀ ch ∈ (['\n', '\n'] : List Char), ch = '\n') ∧ 0 < BLOCK_SIZE
    ∧ estimate_file_size pythonCodecs
        (View.stable "UTF-8" "Windows" ['\n', '\n'] 5) BLOCK_SIZE
      = .ok (some (2 * (['\n', '\n'] : List Char).length)) :=
  ⟨by decide, by decide,
    estimate_windows_newlines_utf8_doubles ['\n', '\n'] 5 BLOCK_SIZE
      (by decide) (by decide)⟩

/-- **C1 (counterexample).** The gzip estimator's hexadecimal check sits
*inside* the block loop, so a zero-length `Hexadecimal` buffer (which
yields zero blocks) skips it entirely and returns the size of the finalized
empty gzip stream — a compressed byte count, not the indeterminate
result. -/
theorem gzip_hex_empty_buffer_returns_count :
    calculate_gzip_size pythonCodecs gzip_len_model
        (View.stable "Hexadecimal" "Unix" [] 0) BLOCK_SIZE = .ok (some 20) :=
  rfl

/-- **C1 (amended).** For every buffer of *nonzero* length whose declared
encoding label is `Hexadecimal`, and every positive block size,
`calculate_gzip_size` returns the indeterminate result — the first block
iteration hits either the change-tag abort or the hexadecimal abort, for
any registry, compressor, line-ending label and mutation behaviour. -/
theorem gzip_hex_nonempty_indeterminate (reg : CodecRegistry)
    (gzipLen : List Nat → Nat) (v : View) (bs : Nat)
    (henc : v.encoding = "Hexadecimal") (hsz : 0 < v.size) (hbs : 0 < bs) :
    calculate_gzip_size reg gzipLen v bs = .ok none := by
  rw [calculate_gzip_size, henc]
  have hlu : ENCODING_MAP.lookup "Hexadecimal" = some SPECIAL_HEXADECIMAL := rfl
  cases hle : LINE_ENDINGS_MAP.lookup v.line_endings with
  | none => simp [hle]
  | some le =>
    simp only [hle, hlu]
    rw [ranges, if_pos hbs]
    obtain ⟨m, hm⟩ : ∃ m, v.size = m + 1 := ⟨v.size - 1, by omega⟩
    rw [hm, rangesLoop, if_pos (Nat.succ_pos m)]
    by_cases htag : v.tagAt 0 ≠ v.tag0
    · rw [gzipBlocks, if_pos htag]; rfl
    · rw [gzipBlocks, if_neg htag, if_pos rfl]; rfl

/-- Witness for C1 (amended): a one-character `Hexadecimal` buffer. -/
theorem gzip_hex_nonempty_indeterminate_witness :
    (View.stable "Hexadecimal" "Unix" ['a'] 0).encoding = "Hexadecimal"
    ∧ 0 < (View.stable "Hexadecimal" "Unix" ['a'] 0).size
    ∧ 0 < BLOCK_SIZE
    ∧ calculate_gzip_size pythonCodecs gzip_len_model
        (View.stable "Hexadecimal" "Unix" ['a'] 0) BLOCK_SIZE = .ok none :=
  ⟨rfl, by decide, by decide,
    gzip_hex_nonempty_indeterminate pythonCodecs gzip_len_model _ _ rfl
      (by decide) (by decide)⟩

/-- **C2 (the code at the failing input).** The encoding table maps the
label `"DOS (CP 437)"` to the codec id `"cp-437"` — a name absent from
CPython's codec registry (the registered names are `cp437`, `437`,
`ibm437`; likewise `"windows-866"` for `"Cyrillic (Windows 866)"`, where
CPython registers `cp866`).  On any non-empty buffer so labelled,
`str.encode` raises `LookupError`, which neither estimator catches (they
catch only `KeyError` and `UnicodeError`), so the exception propagates to
the caller instead of the documented `None`. -/
theorem estimators_raise_lookup_error_on_cp437 :
    estimate_file_size pythonCodecs
        (View.stable "DOS (CP 437)" "Unix" ['a'] 0) BLOCK_SIZE
      = .error .lookupError
    ∧ calculate_gzip_size pythonCodecs gzip_len_model
        (View.stable "DOS (CP 437)" "Unix" ['a'] 0) BLOCK_SIZE
      = .error .lookupError :=
  ⟨rfl, rfl⟩

/-- **C9.** For every buffer whose encoding label is absent from
`ENCODING_MAP` or whose line-ending label is absent from
`LINE_ENDINGS_MAP`, both estimators return the indeterminate result (the
`KeyError` from the table lookup is caught before anything else runs), for
any registry, compressor and block size — and in particular no exception
reaches the caller (`.ok`, not `.error`). -/
theorem estimators_indeterminate_on_unknown_labels (reg : CodecRegistry)
    (gzipLen : List Nat → Nat) (v : View) (bs : Nat)
    (h : ENCODING_MAP.lookup v.encoding = none
      ∨ LINE_ENDINGS_MAP.lookup v.line_endings = none) :
    estimate_file_size reg v bs = .ok none
      ∧ calculate_gzip_size reg gzipLen v bs = .ok none := by
  rcases h with h | h
  · cases hle : LINE_ENDINGS_MAP.lookup v.line_endings <;>
      exact ⟨by simp [estimate_file_size, hle, h],
        by simp [calculate_gzip_size, hle, h]⟩
  · exact ⟨by simp [estimate_file_size, h], by simp [calculate_gzip_size, h]⟩

/-- Witness for C9: the unknown encoding label `"KOI-Foo"`. -/
theorem estimators_indeterminate_on_unknown_labels_witness :
    (ENCODING_MAP.lookup "KOI-Foo" = none
      ∨ LINE_ENDINGS_MAP.lookup "Unix" = none)
    ∧ estimate_file_size pythonCodecs
        (View.stable "KOI-Foo" "Unix" ['a'] 3) BLOCK_SIZE = .ok none
    ∧ calculate_gzip_size pythonCodecs gzip_len_model
        (View.stable "KOI-Foo" "Unix" ['a'] 3) BLOCK_SIZE = .ok none :=
  ⟨Or.inl rfl,
    estimators_indeterminate_on_unknown_labels pythonCodecs gzip_len_model
      (View.stable "KOI-Foo" "Unix" ['a'] 3) BLOCK_SIZE (Or.inl rfl)⟩

/-- **C4.** If, in a run of `estimate_file_size` over recognized labels,
the change tag observed at the start of block iteration `i` differs from
the tag recorded at entry — while every earlier iteration saw the recorded
tag and completed normally — the estimator returns the indeterminate
result, never a partial or wrong count.  The tag is re-checked before every
block's extraction: iteration `i`'s own `tagAt` is what triggers the
abort. -/
theorem estimate_aborts_on_mid_scan_mutation (reg : CodecRegistry) (v : View)
    (bs i : Nat) (les codecName : String)
    (hle : LINE_ENDINGS_MAP.lookup v.line_endings = some les)
    (henc : ENCODING_MAP.lookup v.encoding = some codecName)
    (hi : i < (ranges 0 v.size bs).length)
    (hmut : v.tagAt i ≠ v.tag0)
    (hprior : ∀ k, k < i → v.tagAt k = v.tag0 ∧
      blockOk reg v les.data codecName k ((ranges 0 v.size bs).getD k (0, 0))) :
    estimate_file_size reg v bs = .ok none := by
  rw [estimate_file_size]
  simp only [hle, henc]
  rw [estimateBlocks_abort reg v les.data codecName (ranges 0 v.size bs) i 0 _
    hi (by simpa using hmut) (by intro k hk; simpa using hprior k hk)]
  rfl

/-- Witness for C4: a two-character hexadecimal buffer scanned with block
size 1 whose tag changes between block 0 and block 1. -/
theorem estimate_aborts_on_mid_scan_mutation_witness :
    (⟨"Hexadecimal", "Unix", 2, 0, fun j => if j = 0 then 0 else 1,
        fun _ => ['a', 'a']⟩ : View).tagAt 1
      ≠ (⟨"Hexadecimal", "Unix", 2, 0, fun j => if j = 0 then 0 else 1,
        fun _ => ['a', 'a']⟩ : View).tag0
    ∧ estimate_file_size pythonCodecs
        (⟨"Hexadecimal", "Unix", 2, 0, fun j => if j = 0 then 0 else 1,
          fun _ => ['a', 'a']⟩ : View) 1 = .ok none :=
  ⟨by decide,
    estimate_aborts_on_mid_scan_mutation pythonCodecs _ 1 1 "\n"
      SPECIAL_HEXADECIMAL rfl rfl (by decide) (by decide)
      (fun k hk => by
        have hk0 : k = 0 := by omega
        subst hk0
        exact ⟨rfl, Or.inl rfl⟩)⟩

/-- **C5 (counterexample).** With `calculate_gzip` enabled but
`estimate_file_size` disabled, an update trigger on a pathless buffer never
invokes the gzip estimator: the gzip call is nested under the
`estimate_file_size` setting in the no-path/dirty branch. -/
theorem update_gzip_skipped_when_estimate_disabled :
    (⟨false, true⟩ : Settings).calculate_gzip = true
    ∧ update_file_size ⟨false, true⟩ (fun _ => some 5) pythonCodecs
        gzip_len_model ⟨View.stable "UTF-8" "Unix" ['a'] 0, none, false⟩
      = .ok ⟨none, false⟩ :=
  ⟨rfl, rfl⟩

/-- **C5 (amended).** On a normally completing update trigger, the gzip
estimator runs iff `calculate_gzip` is enabled *and* the branch taken
permits it: in the no-path/dirty branch the `estimate_file_size` setting
must also be enabled, and in the on-disk branch the filesystem size read
must succeed. -/
theorem update_gzip_called_iff (s : Settings) (getsize : String → Option Nat)
    (reg : CodecRegistry) (gzipLen : List Nat → Nat) (cv : ControllerView)
    (o : UpdateOutcome)
    (h : update_file_size s getsize reg gzipLen cv = .ok o) :
    o.gzipCalled = (s.calculate_gzip
      && (if fileNameFalsy cv.file_name || cv.is_dirty then s.estimate_file_size
          else (cv.file_name.bind getsize).isSome)) := by
  rw [update_file_size] at h
  by_cases hb : (fileNameFalsy cv.file_name || cv.is_dirty) = true
  · rw [if_pos hb] at h
    rw [if_pos hb]
    by_cases he : s.estimate_file_size = true
    · rw [if_pos he] at h
      cases hest : estimate_file_size reg cv.view BLOCK_SIZE with
      | error e => rw [hest] at h; cases h
      | ok size? =>
        rw [hest] at h
        simp only [] at h
        by_cases hg : s.calculate_gzip = true
        · rw [if_pos hg] at h
          cases hgz : calculate_gzip_size reg gzipLen cv.view BLOCK_SIZE with
          | error e => rw [hgz] at h; cases h
          | ok gzip? =>
            rw [hgz] at h
            cases h
            simp [hg, he]
        · rw [if_neg hg] at h
          cases h
          simp [Bool.eq_false_iff.2 hg]
    · rw [if_neg he] at h
      cases h
      simp [Bool.eq_false_iff.2 he]
  · rw [if_neg hb] at h
    rw [if_neg hb]
    cases hfn : cv.file_name with
    | none => rw [hfn] at h; cases h; simp
    | some path =>
      rw [hfn] at h
      simp only [] at h
      cases hgs : getsize path with
      | none => rw [hgs] at h; simp only [] at h; cases h; simp [hgs]
      | some n =>
        rw [hgs] at h
        simp only [] at h
        by_cases hg : s.calculate_gzip = true
        · rw [if_pos hg] at h
          cases hgz : calculate_gzip_size reg gzipLen cv.view BLOCK_SIZE with
          | error e => rw [hgz] at h; cases h
          | ok gzip? =>
            rw [hgz] at h
            cases h
            simp [hg, hgs]
        · rw [if_neg hg] at h
          cases h
          simp [Bool.eq_false_iff.2 hg]

/-- Witness for C5 (amended): a dirty pathless UTF-8 buffer with both
settings enabled; the trigger computes `~1 Byte (21 Bytes)` and the gzip
estimator runs. -/
theorem update_gzip_called_iff_witness :
    (⟨some "~1 Byte (21 Bytes)", true⟩ : UpdateOutcome).gzipCalled
      = ((⟨true, true⟩ : Settings).calculate_gzip
        && (if fileNameFalsy (⟨View.stable "UTF-8" "Unix" ['a'] 0, none, false⟩
                : ControllerView).file_name
              || (⟨View.stable "UTF-8" "Unix" ['a'] 0, none, false⟩
                : ControllerView).is_dirty
            then (⟨true, true⟩ : Settings).estimate_file_size
            else ((⟨View.stable "UTF-8" "Unix" ['a'] 0, none, false⟩
                : ControllerView).file_name.bind (fun _ => some 5)).isSome)) :=
  update_gzip_called_iff ⟨true, true⟩ (fun _ => some 5) pythonCodecs
    gzip_len_model ⟨View.stable "UTF-8" "Unix" ['a'] 0, none, false⟩
    ⟨some "~1 Byte (21 Bytes)", true⟩ (by with_unfolding_all rfl)

/-- **C7.** For every count below 1024 the formatter renders the integer
followed by `" Bytes"`, except exactly 1, rendered `"1 Byte"`. -/
theorem file_size_str_small_counts (n : Nat) (h : n < 1024) :
    file_size_str n 1024 = if n = 1 then "1 Byte" else toString n ++ " Bytes" := by
  rw [file_size_str, if_pos h]
  by_cases h1 : n = 1
  · subst h1; rfl
  · rw [if_pos h1, if_neg h1, String.append_assoc]
    rfl

/-- Witness for C7 at `n = 5`. -/
theorem file_size_str_small_counts_witness :
    5 < 1024
    ∧ file_size_str 5 1024 = (if 5 = 1 then "1 Byte" else toString 5 ++ " Bytes") :=
  ⟨by norm_num, file_size_str_small_counts 5 (by norm_num)⟩

/-- **C6.** For every count `n ≥ 1024` the formatter walks the unit table:
it renders with unit `k` (zero-based, `KiB` to `YiB`) exactly when `k` is
the first index at which the scaled value `n / 1024 ^ (k+1)` drops below
1024, printing that value with two decimal places; if the value never drops
below 1024 through all eight units it saturates on `YiB` with one extra
multiplication by the base; and the three boundary examples hold. -/
theorem file_size_str_table_walk (n : Nat) (h : 1024 ≤ n) :
    (∀ k, k < 8 → (∀ j, j < k → 1024 ^ (j + 2) ≤ n) → n < 1024 ^ (k + 2) →
        file_size_str n 1024
          = formatPct2 ((n : ℚ) / 1024 ^ (k + 1)) ++ " " ++ SIZES.getD k "")
    ∧ (1024 ^ 9 ≤ n →
        file_size_str n 1024
          = formatPct2 ((n : ℚ) / 1024 ^ 9 * 1024) ++ " " ++ "YiB")
    ∧ file_size_str 1024 1024 = "1.00 KiB"
    ∧ file_size_str (1024 * 1024) 1024 = "1.00 MiB"
    ∧ file_size_str 1536 1024 = "1.50 KiB" := by
  refine ⟨?_, ?_, by with_unfolding_all rfl, by with_unfolding_all rfl,
    by with_unfolding_all rfl⟩
  · intro k hk hge hlt
    rw [file_size_str, if_neg (by omega)]
    simp only [Nat.cast_ofNat]
    have h0 := fssLoop_stops n SIZES k 0 (by simpa [SIZES] using hk)
      (fun j hj => by
        have := (le_scaled_iff n (j + 1)).2 (hge j hj)
        simpa using this)
      (by
        have := (scaled_lt_iff n (k + 1)).2 hlt
        simpa using this)
    simpa using h0
  · intro h9
    rw [file_size_str, if_neg (by omega)]
    simp only [Nat.cast_ofNat]
    have h0 := fssLoop_exhaust n SIZES 0
      (fun j hj => by
        have hj8 : j < 8 := by simpa [SIZES] using hj
        have hpow : (1024 : ℕ) ^ (j + 2) ≤ 1024 ^ 9 :=
          Nat.pow_le_pow_right (by norm_num) (by omega)
        have := (le_scaled_iff n (j + 1)).2 (le_trans hpow h9)
        simpa using this)
    have hlast : SIZES.getLastD "" = "YiB" := rfl
    rw [hlast] at h0
    simpa [SIZES] using h0

/-- Witness for C6 at `n = 1024` (the spec's own boundary example). -/
theorem file_size_str_table_walk_witness :
    1024 ≤ 1024 ∧ file_size_str 1024 1024 = "1.00 KiB" :=
  ⟨le_refl _, (file_size_str_table_walk 1024 (le_refl _)).2.2.1⟩
